import Mathlib

/-!
# Verification of the java-architect-skills core

A shallow embedding, in Lean 4, of the two pieces of the repository that
carry real logic:

* `src/skills/spring_reviewer/scripts/pmd-bootstrap.py` — the PMD
  provisioning pipeline (mirror-fallback download, extraction,
  verification), the analysis runner and its result reduction, and the
  standalone CLI entry point with its exit codes;
* `src/server.py` — the skill registry, the line-oriented JSON-RPC
  dispatcher loop, and the `prompts/get` / `tools/call` handlers.

External effects (the filesystem, the network, subprocesses, the user's
interrupt key) are modelled by an explicit environment record consumed by
the embedded functions; each embedded function also returns the ordered
trace of observable events it performs, so that claims about *which*
effects happen (and in which order) are ordinary statements about lists.
Python exceptions are modelled with `Except`; `sys.exit(n)` is the
`SystemExit` exception, which the `__main__` wrapper of the bootstrap
script deliberately does not catch.
-/

namespace JavaArchitect

/-! ## Provisioning pipeline (`pmd-bootstrap.py`)

Configuration constants, from lines 17–28 of the script.  URLs are kept as
the literal strings with the version interpolated, exactly as Python's
f-strings produce them. -/

def PMD_VERSION : String := "7.0.0"

def PMD_URLS : List String :=
  [ "https://github.com/pmd/pmd/releases/download/pmd_releases%2F7.0.0/pmd-dist-7.0.0-bin.zip"
  , "https://sourceforge.net/projects/pmd/files/pmd/7.0.0/pmd-dist-7.0.0-bin.zip/download"
  , "https://repo1.maven.org/maven2/net/sourceforge/pmd/pmd-dist/7.0.0/pmd-dist-7.0.0-bin.zip" ]

/-- State of the staging archive `TOOLS_DIR / "pmd-7.0.0.zip"`.  A failed
`urlretrieve` may leave a partially written file behind, which the script
never cleans up on the failure path. -/
inductive ZipState
  | absent
  | incomplete
  | complete
  deriving DecidableEq, Repr

/-- The slice of the filesystem the bootstrap script touches.

`bin` is the existence of `PMD_BIN = TOOLS_DIR / "pmd-bin-7.0.0" / "bin" / "pmd"`;
`pmdDir` the existence of the version-qualified install directory
`PMD_DIR = TOOLS_DIR / "pmd-bin-7.0.0"`; `staging` the staging archive,
which lives directly under `TOOLS_DIR`, *outside* `PMD_DIR`. -/
structure FS where
  bin : Bool
  pmdDir : Bool
  staging : ZipState
  deriving DecidableEq, Repr

/-- Outcome of one completed analyzer subprocess (`subprocess.run` that
returned): exit code, stdout, stderr. -/
structure Completed where
  returncode : Int
  stdout : String
  stderr : String
  deriving DecidableEq, Repr

/-- Outcome of attempting the analyzer subprocess in `run_pmd_analysis`:
it either completes, expires the 300 s timeout
(`subprocess.TimeoutExpired`), or raises some other exception. -/
inductive PmdRun
  | completed (r : Completed)
  | timedOut
  | raised
  deriving DecidableEq, Repr

/-- The ambient world the script cannot control: per-URL download
outcomes, whether extraction of the archive succeeds and whether the
archive actually contains the binary, the verification subprocess's
result, the analysis target, and whether the user hits Ctrl-C. -/
structure Env where
  /-- Whether `download_file url zip_path` succeeds (no exception was
  raised by `urlretrieve`): exactly when `dl url = true`. -/
  dl : String → Bool
  /-- Whether `zipfile.ZipFile(...).extractall` succeeds; it raises iff
  this is `false`. -/
  extract_ok : Bool
  /-- Extracting the archive produces the `bin/pmd` binary. -/
  zip_creates_bin : Bool
  /-- Whether `subprocess.run` on `pmd --version` returns exit code 0
  (given that the binary exists; a missing binary raises instead). -/
  verify_rc_zero : Bool
  /-- Value of `sys.argv[1]`, when present: the analysis target path. -/
  argv_target : Option String
  /-- Whether `Path(target).exists()`. -/
  target_exists : Bool
  /-- Whether `Path(rules_xml).exists()`. -/
  rules_exists : Bool
  /-- What the analyzer subprocess does when actually invoked. -/
  pmd_run : PmdRun
  /-- The user interrupts the run (`KeyboardInterrupt`). -/
  kbint : Bool

/-- Observable effects, in order of occurrence. -/
inductive Event
  | download (url : String)
  | extract
  | verify
  | analyze
  | writeResults
  deriving DecidableEq, Repr

/-- Python exceptions that escape a modelled function.  `systemExit n`
is `sys.exit(n)`; note `SystemExit` and `KeyboardInterrupt` derive from
`BaseException`, so the `except Exception` clause of the `__main__`
wrapper does not catch them. -/
inductive PyExc
  | systemExit (code : Nat)
  | keyboardInterrupt
  | otherExn
  deriving DecidableEq, Repr

/-- Function `check_pmd_installed` (lines 63–68): `PMD_BIN.exists()`. -/
def check_pmd_installed (fs : FS) : Bool := fs.bin

/-- The mirror loop of `download_pmd` (lines 106–109): try each URL in
order with `download_file`; on the first success the staging zip is
complete and the function returns; a failed attempt may leave a partial
staging file and moves on to the next URL.  Returns the event trace, the
final filesystem, and `true` iff some mirror succeeded. -/
def download_loop (env : Env) : List String → FS → List Event × FS × Bool
  | [], fs => ([], fs, false)
  | url :: rest, fs =>
    if env.dl url then
      ([Event.download url], { fs with staging := ZipState.complete }, true)
    else
      let r := download_loop env rest { fs with staging := ZipState.incomplete }
      (Event.download url :: r.1, r.2)

/-- Function `download_pmd` (lines 98–114): run the mirror loop over `PMD_URLS`;
if every mirror fails, print an error and `sys.exit(1)`. -/
def download_pmd (env : Env) (fs : FS) : List Event × FS × Except PyExc Unit :=
  let r := download_loop env PMD_URLS fs
  (r.1, r.2.1, if r.2.2 then Except.ok () else Except.error (PyExc.systemExit 1))

/-- Function `extract_pmd` (lines 117–137): extract the staging archive into
`TOOLS_DIR` (creating `PMD_DIR`), delete the archive, chmod the binary if
present; any exception prints an error and `sys.exit(1)` (the
partially-extracted state on failure is left unchanged in this model). -/
def extract_pmd (env : Env) (fs : FS) : List Event × FS × Except PyExc Unit :=
  if env.extract_ok then
    ([Event.extract],
     { bin := env.zip_creates_bin, pmdDir := true, staging := ZipState.absent },
     Except.ok ())
  else
    ([Event.extract], fs, Except.error (PyExc.systemExit 1))

/-- Function `verify_pmd` (lines 140–167): run `pmd --version` under a 10 s
timeout; exit code 0 means verified.  If the binary does not exist the
`subprocess.run` call raises, which the function's own `except` catches,
returning `False`. -/
def verify_pmd (env : Env) (fs : FS) : List Event × Bool :=
  ([Event.verify], fs.bin && env.verify_rc_zero)

/-- A JSON value, as produced by `json.loads`; objects are association
lists in document order. -/
inductive JVal
  | jnull
  | jbool (b : Bool)
  | jnum (n : Int)
  | jstr (s : String)
  | jarr (xs : List JVal)
  | jobj (fields : List (String × JVal))

/-- Result of `run_pmd_analysis`: either the parsed JSON top-level
`dict`, or the one-entry "raw" dict wrapping unparsable stdout.  PMD's
machine-readable report is a JSON object, so the parsed payload is the
object's field list.  The "raw" wrapper dict has one entry and is
therefore always truthy; a parsed dict is falsy iff its field list is
empty. -/
inductive AnalysisValue
  | parsed (d : List (String × JVal))
  | raw (stdout : String)

/-- Messages written to stderr by `print_error`. -/
inductive LogMsg
  | targetMissing
  | rulesMissing
  | badExitCode (code : Int)
  | stderrText (s : String)
  | timedOut
  | runFailed
  deriving DecidableEq, Repr

/-- Function `run_pmd_analysis` (lines 170–240), with
`output_format = "json"` as every caller passes.  The oracle
`jp stdout` models `json.loads(result.stdout)`: `none` when it raises
`JSONDecodeError`, `some d` when it yields the top-level object `d`.
The result is the stderr log, the event trace, and `some value` on
success (exit code 0 or 4), `none` on failure. -/
def run_pmd_analysis (env : Env)
    (jp : String → Option (List (String × JVal))) :
    List LogMsg × List Event × Option AnalysisValue :=
  if !env.target_exists then ([LogMsg.targetMissing], [], none)
  else if !env.rules_exists then ([LogMsg.rulesMissing], [], none)
  else
    match env.pmd_run with
    | PmdRun.completed r =>
      if r.returncode = 0 ∨ r.returncode = 4 then
        match jp r.stdout with
        | some d => ([], [Event.analyze], some (AnalysisValue.parsed d))
        | none => ([], [Event.analyze], some (AnalysisValue.raw r.stdout))
      else
        (LogMsg.badExitCode r.returncode ::
           (if r.stderr ≠ "" then [LogMsg.stderrText r.stderr] else []),
         [Event.analyze], none)
    | PmdRun.timedOut => ([LogMsg.timedOut], [Event.analyze], none)
    | PmdRun.raised => ([LogMsg.runFailed], [Event.analyze], none)

/-- Lines 284–292 of `main`: the entry check followed by the
download → extract → verify pipeline when the binary is absent.  A
failed verification prints an error and `sys.exit(1)`. -/
def install_phase (env : Env) (fs : FS) :
    List Event × FS × Except PyExc Unit :=
  if check_pmd_installed fs then ([], fs, Except.ok ())
  else
    let d := download_pmd env fs
    match d.2.2 with
    | Except.error e => (d.1, d.2.1, Except.error e)
    | Except.ok () =>
      let x := extract_pmd env d.2.1
      match x.2.2 with
      | Except.error e => (d.1 ++ x.1, x.2.1, Except.error e)
      | Except.ok () =>
        let v := verify_pmd env x.2.1
        if v.2 then (d.1 ++ x.1 ++ v.1, x.2.1, Except.ok ())
        else (d.1 ++ x.1 ++ v.1, x.2.1, Except.error (PyExc.systemExit 1))

/-- Lines 304–332 of `main`: when a CLI target argument was given, run
the analysis; print and save the formatted results only when the
analysis returned a truthy value (`if results:` — a parsed empty dict
is falsy, so nothing is printed or saved for it; the raw wrapper dict
is never empty).  An analysis failure (`None`) is only reported; `main`
then returns normally. -/
def analysis_phase (env : Env)
    (jp : String → Option (List (String × JVal))) : List Event :=
  match env.argv_target with
  | none => []
  | some _ =>
    let a := run_pmd_analysis env jp
    a.2.1 ++
      match a.2.2 with
      | none => []
      | some (AnalysisValue.parsed d) =>
        if d.isEmpty then [] else [Event.writeResults]
      | some (AnalysisValue.raw _) => [Event.writeResults]

/-- Function `main` (lines 276–332): entry check and provisioning, then
the analysis phase, which never changes the modelled filesystem slice
and never fails `main`.  A `KeyboardInterrupt` can arrive at any point;
since the claims about it concern only the final exit status, it is
modelled as raised on entry. -/
def main_run (env : Env) (jp : String → Option (List (String × JVal)))
    (fs : FS) : List Event × FS × Except PyExc Unit :=
  if env.kbint then ([], fs, Except.error PyExc.keyboardInterrupt)
  else
    let inst := install_phase env fs
    match inst.2.2 with
    | Except.error e => (inst.1, inst.2.1, Except.error e)
    | Except.ok () => (inst.1 ++ analysis_phase env jp, inst.2.1, Except.ok ())

/-- The `if __name__ == "__main__"` wrapper (lines 335–344): a normal
return exits 0; `KeyboardInterrupt` is caught and mapped to
`sys.exit(130)`; any other `Exception` is caught and mapped to
`sys.exit(1)`; a `SystemExit` raised inside `main` is *not* an
`Exception`, so it propagates and its code becomes the process status. -/
def script_exit (env : Env) (jp : String → Option (List (String × JVal)))
    (fs : FS) : Nat :=
  match (main_run env jp fs).2.2 with
  | Except.ok () => 0
  | Except.error (PyExc.systemExit n) => n
  | Except.error PyExc.keyboardInterrupt => 130
  | Except.error PyExc.otherExn => 1

/-! ## Result reduction (`format_pmd_results`, lines 243–273)

PMD's JSON report is an object whose `"files"` entry is an array of
objects, each with a `"filename"` string and a `"violations"` array of
objects.  Python's `dict.get(k, d)` is `jget` below.  (On entries of a
different JSON type, the Python source raises `AttributeError` or
`TypeError`; the claims are about well-shaped report entries, so the
list/object views `asArr`/`asObj` below are only ever applied to the
matching constructors in the theorems.) -/

/-- Python's `dict.get(key, default)` over the association-list view of
an object. -/
def jget (fields : List (String × JVal)) (k : String) (d : JVal) : JVal :=
  match fields.lookup k with
  | some v => v
  | none => d

/-- Array view of a JSON value. -/
def asArr : JVal → List JVal
  | JVal.jarr xs => xs
  | _ => []

/-- Object view of a JSON value. -/
def asObj : JVal → List (String × JVal)
  | JVal.jobj fields => fields
  | _ => []

/-- One simplified violation record, with the exact keys and defaults of
lines 262–271. -/
structure Violation where
  file : JVal
  line : JVal
  endLine : JVal
  rule : JVal
  ruleSet : JVal
  priority : JVal
  description : JVal
  externalInfoUrl : JVal

/-- The per-violation, field-by-field map of lines 262–271. -/
def mkViolation (filename : JVal) (v : List (String × JVal)) : Violation :=
  { file := filename
  , line := jget v "beginline" (JVal.jnum 0)
  , endLine := jget v "endline" (JVal.jnum 0)
  , rule := jget v "rule" (JVal.jstr "unknown")
  , ruleSet := jget v "ruleset" (JVal.jstr "unknown")
  , priority := jget v "priority" (JVal.jnum 3)
  , description := jget v "description" (JVal.jstr "")
  , externalInfoUrl := jget v "externalInfoUrl" (JVal.jstr "") }

/-- Function `format_pmd_results` (lines 243–273): guard on a falsy or
`"files"`-less input, then flatten the per-file violation arrays. -/
def format_pmd_results (pmd_data : List (String × JVal)) : List Violation :=
  if pmd_data.isEmpty || (pmd_data.lookup "files").isNone then []
  else
    (asArr (jget pmd_data "files" (JVal.jarr []))).flatMap fun fe =>
      let filename := jget (asObj fe) "filename" (JVal.jstr "unknown")
      (asArr (jget (asObj fe) "violations" (JVal.jarr []))).map fun v =>
        mkViolation filename (asObj v)

/-! ## The MCP server (`src/server.py`)

Strings are Lean `String`s; where the Python source operates on string
contents (`startswith`, `endswith`, `replace`) the embedding works on
the underlying character list. -/

/-- Character-list prefix test (Boolean). -/
def charsPrefix : List Char → List Char → Bool
  | [], _ => true
  | _ :: _, [] => false
  | a :: as, b :: bs => a == b && charsPrefix as bs

/-- Character-list suffix test (Boolean). -/
def charsSuffix (p s : List Char) : Bool :=
  charsPrefix p.reverse s.reverse

/-- The character list of the literal `"-review"` used at lines 98–99 of
`server.py`. -/
def patReview : List Char := ['-', 'r', 'e', 'v', 'i', 'e', 'w']

/-- Fuelled core of Python's `str.replace("-review", "")`: scan left to
right, removing each (non-overlapping) occurrence of the pattern.  The
fuel only serves structural recursion; `s.length` fuel always
suffices. -/
def removeReviewFuel : Nat → List Char → List Char
  | 0, s => s
  | _ + 1, [] => []
  | fuel + 1, c :: rest =>
    if charsPrefix patReview (c :: rest) then
      removeReviewFuel fuel (rest.drop (patReview.length - 1))
    else
      c :: removeReviewFuel fuel rest

/-- Python's `s.replace("-review", "")`: removes every occurrence of
`"-review"`, not only a trailing one. -/
def removeReview (s : List Char) : List Char :=
  removeReviewFuel s.length s

/-- Line 99 of `server.py`: `skill_name = name.replace("-review", "")`. -/
def prompt_skill_name (name : String) : String :=
  String.mk (removeReview name.data)

/-- Line 98 of `server.py`: `name.endswith("-review")`. -/
def ends_with_review (name : String) : Bool :=
  charsSuffix patReview name.data

/-- What the registry records per skill that the `prompts/get` handler
consults: whether `skill["prompt_file"].exists()` and, when it does, the
text `read_text` returns. -/
structure SkillInfo where
  prompt_exists : Bool
  prompt_text : String
  deriving DecidableEq, Repr

/-- An immediate child of the skills directory, as `iterdir` yields it. -/
structure DirEntry where
  name : String
  isDir : Bool
  deriving DecidableEq, Repr

/-- Line 26 of `server.py`: `child.name.startswith('_')`. -/
def starts_with_underscore (s : String) : Bool :=
  charsPrefix ['_'] s.data

/-- Method `SkillRegistry._discover_skills` (lines 20–32): a nonexistent
skills root yields nothing; otherwise every immediate child that is a
directory and does not start with `'_'` contributes exactly its name
(the dict values are paths derived from the name, which no claim
inspects).  `iterdir` yields only immediate children, so nested
directories never appear in the input. -/
def discover_skills (root : Option (List DirEntry)) : List String :=
  match root with
  | none => []
  | some children =>
    children.filterMap fun e =>
      if e.isDir && !starts_with_underscore e.name then some e.name else none

/-- Parameters of a request, as `params.get(...)` sees them: the `name`
and `arguments.target_path` entries, each possibly absent. -/
structure Params where
  name : Option String
  target_path : Option String
  deriving DecidableEq, Repr

/-- An inbound JSON-RPC request after `json.loads`: `request.get`
returns `None` for absent keys. -/
structure Request where
  method : Option String
  params : Params
  id : Option Int
  deriving DecidableEq, Repr

/-- The result part of a response, by shape. -/
inductive Response
  | initializeResult (serverName serverVersion : String)
  | promptsList (names : List String)
  | promptMessages (text : String)
  | toolsList (names : List String)
  | toolText (text : String)
  | rpcError (code : Int) (message : String)
  deriving DecidableEq, Repr

/-- A full response: the originating request's id plus the payload. -/
structure RpcResponse where
  id : Option Int
  body : Response
  deriving DecidableEq, Repr

/-- Outcome of the `subprocess.run` call in the `tools/call` handler
(lines 161–166): it either completes (any exit code) within the 300 s
timeout, or raises — e.g. `subprocess.TimeoutExpired`. -/
inductive SubprocResult
  | completed (stdout stderr : String) (returncode : Int)
  | raised (message : String)
  deriving DecidableEq, Repr

/-- The world the server's handler interacts with: what the subordinate
bootstrap process does for a given target path. -/
structure ServerWorld where
  sub_run : String → SubprocResult

/-- Method `MCPServer.handle_request` (lines 59–183), over a registry
mapping skill names to their prompt-file state.  Follows the source's
if-chain; any path that falls off the end returns `none` (the caller
then prints nothing). -/
def handle_request (skills : List (String × SkillInfo)) (world : ServerWorld)
    (req : Request) : Option RpcResponse :=
  if req.method = some "initialize" then
    some ⟨req.id, Response.initializeResult "java-architect-superpowers" "1.0.0"⟩
  else if req.method = some "prompts/list" then
    some ⟨req.id, Response.promptsList (skills.map fun p => p.1 ++ "-review")⟩
  else if req.method = some "prompts/get" then
    match req.params.name with
    | none => none
    | some n =>
      -- `if name and name.endswith("-review")`
      if n ≠ "" ∧ ends_with_review n then
        match skills.lookup (prompt_skill_name n) with
        | none => none
        | some sk =>
          if sk.prompt_exists then
            some ⟨req.id, Response.promptMessages sk.prompt_text⟩
          else none
      else none
  else if req.method = some "tools/list" then
    some ⟨req.id, Response.toolsList
      (if (skills.lookup "spring_reviewer").isSome
       then ["spring_reviewer_analyze"] else [])⟩
  else if req.method = some "tools/call" then
    if req.params.name = some "spring_reviewer_analyze" then
      -- `if not skill or not target_path` — absent skill, absent
      -- target_path, and the empty (falsy) string all yield the error.
      match skills.lookup "spring_reviewer", req.params.target_path with
      | some _, some t =>
        if t = "" then
          some ⟨req.id, Response.rpcError (-32602) "Invalid arguments"⟩
        else
          match world.sub_run t with
          | SubprocResult.completed out err _ =>
            some ⟨req.id, Response.toolText (out ++ "\n" ++ err)⟩
          | SubprocResult.raised msg =>
            some ⟨req.id, Response.rpcError (-32603) msg⟩
      | _, _ => some ⟨req.id, Response.rpcError (-32602) "Invalid arguments"⟩
    else none
  else none

/-- What one input line turns out to be when the loop body runs:
`json.loads` raises (malformed JSON), the decoded request is handled but
handling raises (caught by the same `except` clause), or the request is
handled normally by `handle_request`. -/
inductive LineFate
  | badJson
  | handlerFault (req : Request)
  | request (req : Request)
  deriving DecidableEq, Repr

/-- One iteration of the `while True` body of `MCPServer.run`
(lines 46–57) as a step function on (remaining input, emitted output):
`none` means the loop `break`s — which happens exactly on end-of-input
(`readline` returned empty).  A fault in the body is caught by the
`except` clause, logged, and the loop continues with nothing emitted. -/
def loop_step (skills : List (String × SkillInfo)) (world : ServerWorld) :
    List LineFate × List RpcResponse →
      Option (List LineFate × List RpcResponse)
  | ([], _) => none
  | (l :: rest, out) =>
    match l with
    | LineFate.badJson => some (rest, out)
    | LineFate.handlerFault _ => some (rest, out)
    | LineFate.request req =>
      match handle_request skills world req with
      | some r => some (rest, out ++ [r])
      | none => some (rest, out)

/-- Method `MCPServer.run`, whole-loop form: process every input line in
order until end-of-input, collecting the responses printed to stdout. -/
def server_run (skills : List (String × SkillInfo)) (world : ServerWorld) :
    List LineFate → List RpcResponse
  | [] => []
  | LineFate.badJson :: rest => server_run skills world rest
  | LineFate.handlerFault _ :: rest => server_run skills world rest
  | LineFate.request req :: rest =>
    match handle_request skills world req with
    | some r => r :: server_run skills world rest
    | none => server_run skills world rest

/-! ## Helper lemmas about the provisioning pipeline -/

theorem PMD_URLS_nodup : PMD_URLS.Nodup := by decide

theorem download_loop_spec (env : Env) :
    ∀ (urls : List String) (fs : FS) (k : Nat), k < urls.length →
      (∀ u ∈ urls.take k, env.dl u = false) →
      env.dl (urls.getD k "") = true →
      (download_loop env urls fs).1 = (urls.take (k + 1)).map Event.download ∧
      (download_loop env urls fs).2.2 = true ∧
      (download_loop env urls fs).2.1.staging = ZipState.complete ∧
      (download_loop env urls fs).2.1.bin = fs.bin ∧
      (download_loop env urls fs).2.1.pmdDir = fs.pmdDir := by
  intro urls
  induction urls with
  | nil => intro fs k hk; simp at hk
  | cons u rest ih =>
    intro fs k hk hfail hsucc
    cases k with
    | zero =>
      simp only [List.getD_cons_zero] at hsucc
      simp [download_loop, hsucc]
    | succ k =>
      have hu : env.dl u = false := hfail u (by simp)
      have hrest : ∀ w ∈ rest.take k, env.dl w = false := fun w hw =>
        hfail w (by simp [List.take_cons]; right; exact hw)
      simp only [List.getD_cons_succ] at hsucc
      have hk2 : k < rest.length := by simpa using hk
      obtain ⟨h1, h2, h3, h4, h5⟩ :=
        ih { fs with staging := ZipState.incomplete } k hk2 hrest hsucc
      simp [download_loop, hu, h1, h2, h3, h4, h5, List.take_cons]

theorem download_loop_all_fail (env : Env) :
    ∀ (urls : List String) (fs : FS), (∀ u ∈ urls, env.dl u = false) →
      (download_loop env urls fs).1 = urls.map Event.download ∧
      (download_loop env urls fs).2.2 = false ∧
      (download_loop env urls fs).2.1.bin = fs.bin ∧
      (download_loop env urls fs).2.1.pmdDir = fs.pmdDir := by
  intro urls
  induction urls with
  | nil => intro fs _; simp [download_loop]
  | cons u rest ih =>
    intro fs hall
    have hu : env.dl u = false := hall u (by simp)
    obtain ⟨h1, h2, h3, h4⟩ :=
      ih { fs with staging := ZipState.incomplete } fun w hw => hall w (by simp [hw])
    simp [download_loop, hu, h1, h2, h3, h4]

theorem run_pmd_analysis_events (env : Env)
    (jp : String → Option (List (String × JVal))) :
    (run_pmd_analysis env jp).2.1 = [] ∨
      (run_pmd_analysis env jp).2.1 = [Event.analyze] := by
  unfold run_pmd_analysis
  by_cases h1 : env.target_exists <;> by_cases h2 : env.rules_exists <;>
    simp [h1, h2]
  cases env.pmd_run with
  | completed r =>
    by_cases h3 : r.returncode = 0 ∨ r.returncode = 4
    · simp only [h3, if_pos]
      cases jp r.stdout <;> simp
    · simp [h3]
  | timedOut => simp
  | raised => simp

theorem analysis_phase_no_download (env : Env)
    (jp : String → Option (List (String × JVal))) (u : String) :
    Event.download u ∉ analysis_phase env jp := by
  unfold analysis_phase
  cases env.argv_target with
  | none => simp
  | some t =>
    simp only
    intro hmem
    rcases List.mem_append.1 hmem with h | h
    · rcases run_pmd_analysis_events env jp with he | he <;> rw [he] at h <;>
        simp at h
    · rcases hr : (run_pmd_analysis env jp).2.2 with _ | v
      · rw [hr] at h; simp at h
      · rw [hr] at h
        cases v with
        | parsed d =>
          by_cases hd : d.isEmpty <;> simp [hd] at h
        | raw s => simp at h

theorem install_phase_installed (env : Env) (fs : FS) (hb : fs.bin = true) :
    install_phase env fs = ([], fs, Except.ok ()) := by
  simp [install_phase, check_pmd_installed, hb]

theorem install_phase_ok_bin (env : Env) (fs : FS)
    (h : (install_phase env fs).2.2 = Except.ok ()) :
    (install_phase env fs).2.1.bin = true := by
  unfold install_phase at h ⊢
  by_cases hb : fs.bin
  · simp [check_pmd_installed, hb]
  · simp only [check_pmd_installed, hb, Bool.false_eq_true, if_false] at h ⊢
    by_cases hdl : (download_loop env PMD_URLS fs).2.2
    · simp only [download_pmd, hdl, if_pos] at h ⊢
      by_cases hx : env.extract_ok
      · simp only [extract_pmd, hx, if_pos] at h ⊢
        by_cases hv : env.zip_creates_bin && env.verify_rc_zero
        · rw [Bool.and_eq_true] at hv
          obtain ⟨hz, hr⟩ := hv
          simp [verify_pmd, hz, hr]
        · simp [verify_pmd, hv] at h
      · simp [extract_pmd, hx] at h
    · simp [download_pmd, hdl] at h

theorem main_run_of_install_ok (env : Env)
    (jp : String → Option (List (String × JVal))) (fs : FS)
    (hk : env.kbint = false)
    (h : (install_phase env fs).2.2 = Except.ok ()) :
    main_run env jp fs =
      ((install_phase env fs).1 ++ analysis_phase env jp,
        (install_phase env fs).2.1, Except.ok ()) := by
  unfold main_run
  simp only [hk, Bool.false_eq_true, if_false]
  rw [h]

theorem main_run_of_install_error (env : Env)
    (jp : String → Option (List (String × JVal))) (fs : FS)
    (hk : env.kbint = false) (e : PyExc)
    (h : (install_phase env fs).2.2 = Except.error e) :
    main_run env jp fs =
      ((install_phase env fs).1, (install_phase env fs).2.1,
        Except.error e) := by
  unfold main_run
  simp only [hk, Bool.false_eq_true, if_false]
  rw [h]

theorem main_run_ok_bin (env : Env)
    (jp : String → Option (List (String × JVal))) (fs : FS) (ev : List Event)
    (fs2 : FS) (h : main_run env jp fs = (ev, fs2, Except.ok ())) :
    fs2.bin = true := by
  unfold main_run at h
  by_cases hk : env.kbint
  · simp [hk] at h
  · simp only [hk, Bool.false_eq_true, if_false] at h
    rcases hi : (install_phase env fs).2.2 with e | u
    · rw [hi] at h; simp at h
    · rw [hi] at h
      have h2 : (install_phase env fs).2.1 = fs2 := by
        simpa using congrArg (fun p => p.2.1) h
      rw [← h2]
      exact install_phase_ok_bin env fs hi

theorem main_run_installed (env : Env)
    (jp : String → Option (List (String × JVal))) (fs : FS)
    (hk : env.kbint = false) (hb : fs.bin = true) :
    main_run env jp fs = (analysis_phase env jp, fs, Except.ok ()) := by
  have h := main_run_of_install_ok env jp fs hk
    (by rw [install_phase_installed env fs hb])
  rw [h, install_phase_installed env fs hb]
  simp

theorem install_phase_all_dl_fail (env : Env) (fs : FS) (hbin : fs.bin = false)
    (hall : ∀ u ∈ PMD_URLS, env.dl u = false) :
    (install_phase env fs).2.2 = Except.error (PyExc.systemExit 1) := by
  obtain ⟨_, h2, _, _⟩ := download_loop_all_fail env PMD_URLS fs hall
  unfold install_phase
  simp [check_pmd_installed, hbin, download_pmd, h2]

theorem install_phase_extract_fail (env : Env) (fs : FS)
    (hbin : fs.bin = false) (hx : env.extract_ok = false) :
    (install_phase env fs).2.2 = Except.error (PyExc.systemExit 1) := by
  unfold install_phase
  simp only [check_pmd_installed, hbin, Bool.false_eq_true, if_false]
  by_cases hdl : (download_loop env PMD_URLS fs).2.2
  · simp [download_pmd, hdl, extract_pmd, hx]
  · simp [download_pmd, hdl]

theorem install_phase_verify_fail (env : Env) (fs : FS)
    (hbin : fs.bin = false)
    (hv : (env.zip_creates_bin && env.verify_rc_zero) = false) :
    (install_phase env fs).2.2 = Except.error (PyExc.systemExit 1) := by
  unfold install_phase
  simp only [check_pmd_installed, hbin, Bool.false_eq_true, if_false]
  by_cases hdl : (download_loop env PMD_URLS fs).2.2
  · by_cases hx : env.extract_ok
    · simp [download_pmd, hdl, extract_pmd, hx, verify_pmd, hv]
    · simp [download_pmd, hdl, extract_pmd, hx]
  · simp [download_pmd, hdl]

theorem script_exit_of_install_error (env : Env)
    (jp : String → Option (List (String × JVal))) (fs : FS)
    (hk : env.kbint = false)
    (h : (install_phase env fs).2.2 = Except.error (PyExc.systemExit 1)) :
    script_exit env jp fs = 1 := by
  simp [script_exit, main_run_of_install_error env jp fs hk _ h]

theorem script_exit_of_install_ok (env : Env)
    (jp : String → Option (List (String × JVal))) (fs : FS)
    (hk : env.kbint = false)
    (h : (install_phase env fs).2.2 = Except.ok ()) :
    script_exit env jp fs = 0 := by
  simp [script_exit, main_run_of_install_ok env jp fs hk h]

/-! ## Concrete environments used as witnesses -/

/-- A filesystem on which the pinned binary is already installed. -/
def fsInstalled : FS := ⟨true, true, ZipState.absent⟩

/-- A filesystem with nothing installed. -/
def fsEmpty : FS := ⟨false, false, ZipState.absent⟩

/-- A parse oracle for which `json.loads` always fails. -/
def jpNone : String → Option (List (String × JVal)) := fun _ => none

/-- First mirror down, second mirror up. -/
def envMirror2 : Env :=
  { dl := fun u => u == PMD_URLS.getD 1 ""
  , extract_ok := true, zip_creates_bin := true, verify_rc_zero := true
  , argv_target := none, target_exists := false, rules_exists := false
  , pmd_run := PmdRun.timedOut, kbint := false }

/-- Every mirror down. -/
def envAllDown : Env :=
  { dl := fun _ => false
  , extract_ok := true, zip_creates_bin := true, verify_rc_zero := true
  , argv_target := none, target_exists := false, rules_exists := false
  , pmd_run := PmdRun.timedOut, kbint := false }

/-- No CLI argument, nothing to analyze; installation already present. -/
def envIdle : Env :=
  { dl := fun _ => false
  , extract_ok := false, zip_creates_bin := false, verify_rc_zero := false
  , argv_target := none, target_exists := false, rules_exists := false
  , pmd_run := PmdRun.raised, kbint := false }

/-- Interrupted by the user. -/
def envInterrupted : Env :=
  { dl := fun _ => false
  , extract_ok := false, zip_creates_bin := false, verify_rc_zero := false
  , argv_target := none, target_exists := false, rules_exists := false
  , pmd_run := PmdRun.raised, kbint := true }

/-- Installed; analysis requested but the analyzer times out. -/
def envAnalysisTimeout : Env :=
  { dl := fun _ => false
  , extract_ok := false, zip_creates_bin := false, verify_rc_zero := false
  , argv_target := some "/project/src", target_exists := true
  , rules_exists := true, pmd_run := PmdRun.timedOut, kbint := false }

/-- Installed; the analyzer completes with exit code 4 (violations). -/
def envRc4 : Env :=
  { dl := fun _ => false
  , extract_ok := false, zip_creates_bin := false, verify_rc_zero := false
  , argv_target := some "/project/src", target_exists := true
  , rules_exists := true
  , pmd_run := PmdRun.completed ⟨4, "out4", "e4"⟩, kbint := false }

/-- Installed; the analyzer completes with unexpected exit code 2. -/
def envRc2 : Env :=
  { dl := fun _ => false
  , extract_ok := false, zip_creates_bin := false, verify_rc_zero := false
  , argv_target := some "/project/src", target_exists := true
  , rules_exists := true
  , pmd_run := PmdRun.completed ⟨2, "", "boom"⟩, kbint := false }

/-! ## Claim theorems for the provisioning pipeline -/

/-- C1: Mirror fallback order.  If every source before position `k` in
the fixed ordered URL list fails and the source at position `k`
succeeds, then `download_pmd` attempts exactly the sources at positions
`0..k` once each, in list order (so each earlier source is attempted
exactly once, the source at `k` is downloaded from, and no later source
is ever attempted), returns successfully, leaves a complete staging
archive, and — the URL list having no duplicates — never attempts any
URL twice. -/
theorem mirror_fallback_order (env : Env) (fs : FS) (k : Nat)
    (hk : k < PMD_URLS.length)
    (hfail : ∀ u ∈ PMD_URLS.take k, env.dl u = false)
    (hsucc : env.dl (PMD_URLS.getD k "") = true) :
    (download_pmd env fs).1 = (PMD_URLS.take (k + 1)).map Event.download ∧
    (download_pmd env fs).2.2 = Except.ok () ∧
    (download_pmd env fs).1.Nodup ∧
    (download_pmd env fs).2.1.staging = ZipState.complete := by
  obtain ⟨h1, h2, h3, _, _⟩ :=
    download_loop_spec env PMD_URLS fs k hk hfail hsucc
  have e1 : (download_pmd env fs).1 = (download_loop env PMD_URLS fs).1 := rfl
  have e2 : (download_pmd env fs).2.1 =
      (download_loop env PMD_URLS fs).2.1 := rfl
  refine ⟨e1 ▸ h1, ?_, ?_, e2 ▸ h3⟩
  · simp [download_pmd, h2]
  · rw [e1, h1]
    exact List.Nodup.map (fun a b hab => Event.download.inj hab)
      (List.Nodup.sublist (List.take_sublist _ _) PMD_URLS_nodup)

theorem mirror_fallback_order_witness :
    (1 < PMD_URLS.length ∧ (∀ u ∈ PMD_URLS.take 1, envMirror2.dl u = false) ∧
      envMirror2.dl (PMD_URLS.getD 1 "") = true) ∧
    (download_pmd envMirror2 fsEmpty).1 =
      (PMD_URLS.take 2).map Event.download ∧
    (download_pmd envMirror2 fsEmpty).2.2 = Except.ok () :=
  ⟨⟨by decide, by decide, by decide⟩,
    (mirror_fallback_order envMirror2 fsEmpty 1 (by decide) (by decide)
      (by decide)).1,
    (mirror_fallback_order envMirror2 fsEmpty 1 (by decide) (by decide)
      (by decide)).2.1⟩

/-- C6: if every download source fails (and the binary was not already
installed), the run fails with `SystemExit 1`, extraction is never
attempted, and the version-qualified install directory and its binary
are untouched — in particular no binary appears at the install path.
(The staging archive lives outside the install directory.) -/
theorem all_mirrors_fail_no_partial_install (env : Env)
    (jp : String → Option (List (String × JVal))) (fs : FS)
    (hall : ∀ u ∈ PMD_URLS, env.dl u = false)
    (hbin : fs.bin = false) (hk : env.kbint = false) :
    (main_run env jp fs).2.2 = Except.error (PyExc.systemExit 1) ∧
    script_exit env jp fs = 1 ∧
    Event.extract ∉ (main_run env jp fs).1 ∧
    (main_run env jp fs).2.1.bin = fs.bin ∧
    (main_run env jp fs).2.1.pmdDir = fs.pmdDir ∧
    (main_run env jp fs).2.1.bin = false := by
  obtain ⟨h1, h2, h3, h4⟩ := download_loop_all_fail env PMD_URLS fs hall
  have hinst : install_phase env fs =
      ((download_loop env PMD_URLS fs).1, (download_loop env PMD_URLS fs).2.1,
        Except.error (PyExc.systemExit 1)) := by
    unfold install_phase
    simp [check_pmd_installed, hbin, download_pmd, h2]
  have hm := main_run_of_install_error env jp fs hk (PyExc.systemExit 1)
    (by rw [hinst])
  refine ⟨by rw [hm, hinst], ?_, ?_, ?_, ?_, ?_⟩
  · exact script_exit_of_install_error env jp fs hk (by rw [hinst])
  · rw [hm, hinst]
    simp only [h1]
    intro hmem
    simp [List.mem_map] at hmem
  · rw [hm, hinst]; exact h3
  · rw [hm, hinst]; exact h4
  · rw [hm, hinst]; rw [h3, hbin]

theorem all_mirrors_fail_no_partial_install_witness :
    ((∀ u ∈ PMD_URLS, envAllDown.dl u = false) ∧ fsEmpty.bin = false) ∧
    script_exit envAllDown jpNone fsEmpty = 1 ∧
    Event.extract ∉ (main_run envAllDown jpNone fsEmpty).1 ∧
    (main_run envAllDown jpNone fsEmpty).2.1.bin = false :=
  ⟨⟨by decide, rfl⟩,
    (all_mirrors_fail_no_partial_install envAllDown jpNone fsEmpty
      (by decide) rfl rfl).2.1,
    (all_mirrors_fail_no_partial_install envAllDown jpNone fsEmpty
      (by decide) rfl rfl).2.2.1,
    (all_mirrors_fail_no_partial_install envAllDown jpNone fsEmpty
      (by decide) rfl rfl).2.2.2.2.2⟩

/-- C5: provisioning idempotence.  When the pinned-version binary
already exists at the install path, a run performs no download at all;
and after any run that returns normally, the binary exists, so a second
run (under any environment) performs no download either. -/
theorem provisioning_idempotent (env env2 : Env)
    (jp jp2 : String → Option (List (String × JVal))) (fs : FS) :
    (fs.bin = true → ∀ u, Event.download u ∉ (main_run env jp fs).1) ∧
    (∀ ev fs2, main_run env jp fs = (ev, fs2, Except.ok ()) →
      ∀ u, Event.download u ∉ (main_run env2 jp2 fs2).1) := by
  have key : ∀ (e : Env) (j : String → Option (List (String × JVal)))
      (g : FS), g.bin = true →
      ∀ u, Event.download u ∉ (main_run e j g).1 := by
    intro e j g hb u
    by_cases hk : e.kbint = true
    · simp [main_run, hk]
    · have hk2 : e.kbint = false := by simpa using hk
      rw [main_run_installed e j g hk2 hb]
      exact analysis_phase_no_download e j u
  constructor
  · intro hb; exact key env jp fs hb
  · intro ev fs2 h u
    exact key env2 jp2 fs2 (main_run_ok_bin env jp fs ev fs2 h) u

theorem provisioning_idempotent_witness :
    fsInstalled.bin = true ∧
    Event.download "https://example.org/pmd.zip" ∉
      (main_run envAllDown jpNone fsInstalled).1 ∧
    main_run envIdle jpNone fsInstalled = ([], fsInstalled, Except.ok ()) ∧
    Event.download "https://example.org/pmd.zip" ∉
      (main_run envAllDown jpNone fsInstalled).1 :=
  ⟨rfl,
    (provisioning_idempotent envAllDown envAllDown jpNone jpNone
      fsInstalled).1 rfl _,
    rfl,
    (provisioning_idempotent envIdle envAllDown jpNone jpNone
      fsInstalled).2 [] fsInstalled rfl _⟩

/-- C2 (amended): exit-code behaviour of the standalone script.  The
process exits 130 when interrupted; 0 on normal completion — which
includes both "violations found" *and* a failed or timed-out analysis,
since `main` merely skips the results block when `run_pmd_analysis`
returns `None`; and 1 on provisioning failures: all mirrors exhausted,
extraction failure, or verification failure. -/
theorem standalone_exit_codes (env : Env)
    (jp : String → Option (List (String × JVal))) (fs : FS) :
    (env.kbint = true → script_exit env jp fs = 130) ∧
    (env.kbint = false → (install_phase env fs).2.2 = Except.ok () →
      script_exit env jp fs = 0) ∧
    (env.kbint = false → (install_phase env fs).2.2 = Except.ok () →
      (run_pmd_analysis env jp).2.2 = none → script_exit env jp fs = 0) ∧
    (env.kbint = false → fs.bin = false →
      (∀ u ∈ PMD_URLS, env.dl u = false) → script_exit env jp fs = 1) ∧
    (env.kbint = false → fs.bin = false → env.extract_ok = false →
      script_exit env jp fs = 1) ∧
    (env.kbint = false → fs.bin = false →
      (env.zip_creates_bin && env.verify_rc_zero) = false →
      script_exit env jp fs = 1) := by
  refine ⟨?_, ?_, ?_, ?_, ?_, ?_⟩
  · intro hk; simp [script_exit, main_run, hk]
  · intro hk hok; exact script_exit_of_install_ok env jp fs hk hok
  · intro hk hok _; exact script_exit_of_install_ok env jp fs hk hok
  · intro hk hbin hall
    exact script_exit_of_install_error env jp fs hk
      (install_phase_all_dl_fail env fs hbin hall)
  · intro hk hbin hx
    exact script_exit_of_install_error env jp fs hk
      (install_phase_extract_fail env fs hbin hx)
  · intro hk hbin hv
    exact script_exit_of_install_error env jp fs hk
      (install_phase_verify_fail env fs hbin hv)

theorem standalone_exit_codes_witness :
    script_exit envInterrupted jpNone fsEmpty = 130 ∧
    script_exit envRc4 jpNone fsInstalled = 0 ∧
    script_exit envAnalysisTimeout jpNone fsInstalled = 0 ∧
    script_exit envAllDown jpNone fsEmpty = 1 :=
  ⟨(standalone_exit_codes envInterrupted jpNone fsEmpty).1 rfl,
    (standalone_exit_codes envRc4 jpNone fsInstalled).2.1 rfl
      (by rw [install_phase_installed envRc4 fsInstalled rfl]),
    (standalone_exit_codes envAnalysisTimeout jpNone fsInstalled).2.2.1 rfl
      (by rw [install_phase_installed envAnalysisTimeout fsInstalled rfl]) rfl,
    (standalone_exit_codes envAllDown jpNone fsEmpty).2.2.2.1 rfl rfl
      (by decide)⟩

/-- C2 counterexample: an unrecoverable *analysis* failure — here the
analyzer timing out — does not exit with status 1 as the claim states:
`run_pmd_analysis` returns `None`, `main` skips the results block and
returns normally, and the standalone process exits 0. -/
theorem standalone_exit_codes_counterexample :
    (run_pmd_analysis envAnalysisTimeout jpNone).2.2 = none ∧
    (run_pmd_analysis envAnalysisTimeout jpNone).1 = [LogMsg.timedOut] ∧
    envAnalysisTimeout.kbint = false ∧
    script_exit envAnalysisTimeout jpNone fsInstalled = 0 :=
  ⟨rfl, rfl, rfl, rfl⟩

/-- C4: analyzer exit-code policy.  For a completed analyzer
subprocess, exit codes 0 and 4 are success — the JSON output is parsed
when possible, and returned raw otherwise (so code 4, violations found,
still yields a result) — while any other exit code yields no result,
logs the exit code, and surfaces the captured stderr text when there is
any. -/
theorem analyzer_exit_code_policy (env : Env)
    (jp : String → Option (List (String × JVal))) (r : Completed)
    (hc : env.pmd_run = PmdRun.completed r)
    (ht : env.target_exists = true) (hr : env.rules_exists = true) :
    ((r.returncode = 0 ∨ r.returncode = 4) →
      ∀ d, jp r.stdout = some d →
        (run_pmd_analysis env jp).2.2 = some (AnalysisValue.parsed d)) ∧
    ((r.returncode = 0 ∨ r.returncode = 4) → jp r.stdout = none →
      (run_pmd_analysis env jp).2.2 = some (AnalysisValue.raw r.stdout)) ∧
    (r.returncode ≠ 0 → r.returncode ≠ 4 →
      (run_pmd_analysis env jp).2.2 = none ∧
      LogMsg.badExitCode r.returncode ∈ (run_pmd_analysis env jp).1 ∧
      (r.stderr ≠ "" → LogMsg.stderrText r.stderr ∈
        (run_pmd_analysis env jp).1)) := by
  refine ⟨?_, ?_, ?_⟩
  · intro h04 d hd
    simp [run_pmd_analysis, ht, hr, hc, h04, hd]
  · intro h04 hd
    simp [run_pmd_analysis, ht, hr, hc, h04, hd]
  · intro h0 h4
    have hno : ¬(r.returncode = 0 ∨ r.returncode = 4) := by
      rintro (h | h) <;> [exact h0 h; exact h4 h]
    refine ⟨?_, ?_, ?_⟩
    · simp [run_pmd_analysis, ht, hr, hc, hno]
    · simp [run_pmd_analysis, ht, hr, hc, hno]
    · intro hs
      simp [run_pmd_analysis, ht, hr, hc, hno, hs]

theorem analyzer_exit_code_policy_witness :
    (run_pmd_analysis envRc4 jpNone).2.2 =
      some (AnalysisValue.raw "out4") ∧
    (run_pmd_analysis envRc2 jpNone).2.2 = none ∧
    LogMsg.badExitCode 2 ∈ (run_pmd_analysis envRc2 jpNone).1 ∧
    LogMsg.stderrText "boom" ∈ (run_pmd_analysis envRc2 jpNone).1 :=
  ⟨(analyzer_exit_code_policy envRc4 jpNone ⟨4, "out4", "e4"⟩ rfl rfl
      rfl).2.1 (Or.inr rfl) rfl,
    ((analyzer_exit_code_policy envRc2 jpNone ⟨2, "", "boom"⟩ rfl rfl
      rfl).2.2 (by decide) (by decide)).1,
    ((analyzer_exit_code_policy envRc2 jpNone ⟨2, "", "boom"⟩ rfl rfl
      rfl).2.2 (by decide) (by decide)).2.1,
    ((analyzer_exit_code_policy envRc2 jpNone ⟨2, "", "boom"⟩ rfl rfl
      rfl).2.2 (by decide) (by decide)).2.2 (by decide)⟩

/-! ## Helper lemmas about the embedded string operations -/

theorem charsPrefix_iff : ∀ (p s : List Char), charsPrefix p s = true ↔ p <+: s := by
  intro p
  induction p with
  | nil => intro s; simp [charsPrefix]
  | cons a as ih =>
    intro s
    cases s with
    | nil => simp [charsPrefix]
    | cons b bs =>
      simp [charsPrefix, List.cons_prefix_cons, ih bs, Bool.and_eq_true,
        beq_iff_eq]

theorem charsSuffix_iff (p s : List Char) : charsSuffix p s = true ↔ p <:+ s := by
  unfold charsSuffix
  rw [charsPrefix_iff]
  exact List.reverse_prefix

theorem removeReviewFuel_congr : ∀ (f1 f2 : Nat) (s : List Char),
    s.length ≤ f1 → s.length ≤ f2 →
    removeReviewFuel f1 s = removeReviewFuel f2 s := by
  intro f1
  induction f1 with
  | zero =>
    intro f2 s h1 _
    have hs : s = [] := List.length_eq_zero.mp (Nat.le_zero.mp h1)
    subst hs
    cases f2 <;> rfl
  | succ g ih =>
    intro f2 s h1 h2
    cases s with
    | nil => cases f2 <;> rfl
    | cons c rest =>
      cases f2 with
      | zero => simp at h2
      | succ g2 =>
        simp only [List.length_cons, Nat.add_le_add_iff_right] at h1 h2
        by_cases hp : charsPrefix patReview (c :: rest) = true
        · simp only [removeReviewFuel, hp, if_true]
          exact ih g2 (rest.drop (patReview.length - 1))
            (by rw [List.length_drop]; omega) (by rw [List.length_drop]; omega)
        · simp only [removeReviewFuel, hp, Bool.false_eq_true, if_false]
          rw [ih g2 rest h1 h2]

theorem removeReview_append_pat : ∀ (s : List Char), ¬ patReview <:+: s →
    removeReview (s ++ patReview) = s := by
  intro s
  induction s with
  | nil => intro _; decide
  | cons c s ih =>
    intro h
    show removeReviewFuel ((s ++ patReview).length + 1) (c :: (s ++ patReview)) =
      c :: s
    by_cases hp : charsPrefix patReview (c :: (s ++ patReview)) = true
    · exfalso
      have hpre : patReview <+: c :: (s ++ patReview) := (charsPrefix_iff _ _).1 hp
      have hp2 : charsPrefix patReview ((c :: s) ++ patReview) = true := hp
      rcases Nat.lt_or_ge (c :: s).length patReview.length with hlt | hge
      · obtain ⟨t, ht⟩ := hpre
        have ht2 : patReview ++ t = (c :: s) ++ patReview := by simpa using ht
        have hs : (c :: s) = patReview.take (c :: s).length := by
          have h3 := congrArg (List.take (c :: s).length) ht2
          rw [List.take_append_of_le_length (Nat.le_of_lt hlt)] at h3
          rw [List.take_left] at h3
          exact h3.symm
        have hcases : (c :: s).length = 1 ∨ (c :: s).length = 2 ∨
            (c :: s).length = 3 ∨ (c :: s).length = 4 ∨
            (c :: s).length = 5 ∨ (c :: s).length = 6 := by
          have h7 : (c :: s).length < 7 := by simpa [patReview] using hlt
          have h1 : 1 ≤ (c :: s).length := by simp
          omega
        rcases hcases with hm | hm | hm | hm | hm | hm <;>
          rw [hm] at hs <;> rw [hs] at hp2 <;> exact absurd hp2 (by decide)
      · obtain ⟨t, ht⟩ := hpre
        have ht2 : patReview ++ t = (c :: s) ++ patReview := by simpa using ht
        have h3 := congrArg (List.take patReview.length) ht2
        rw [List.take_left] at h3
        rw [List.take_append_of_le_length hge] at h3
        have hpre2 : patReview <+: (c :: s) := by
          rw [h3]
          exact List.take_prefix _ _
        exact h hpre2.isInfix
    · simp only [removeReviewFuel, hp, if_false]
      have hs2 : ¬ patReview <:+: s := fun hin => h (List.infix_cons hin)
      show c :: removeReview (s ++ patReview) = c :: s
      rw [ih hs2]

/-! ## Claim theorems for the server -/

/-- A trivial subprocess world for requests that never reach
`tools/call`. -/
def worldTrivial : ServerWorld := ⟨fun _ => SubprocResult.raised "t"⟩

/-- C3 (amended): `prompts/get` round trip.  For every registered skill
whose name does not *contain* `"-review"`, a request named
`S ++ "-review"` returns the exact prompt-file text as the single
user-role message when the prompt file exists; and there is no response
when the `name` parameter is absent, does not end in `"-review"`, when
the derived skill name — the request name with *every* occurrence of
`"-review"` removed — is not registered, or when its prompt file does
not exist. -/
theorem prompts_get_exact_roundtrip (skills : List (String × SkillInfo))
    (world : ServerWorld) (req : Request)
    (hm : req.method = some "prompts/get") :
    (∀ (S : String) (sk : SkillInfo), ¬ patReview <:+: S.data →
      skills.lookup S = some sk →
      req.params.name = some (S ++ "-review") → sk.prompt_exists = true →
      handle_request skills world req =
        some ⟨req.id, Response.promptMessages sk.prompt_text⟩) ∧
    (req.params.name = none → handle_request skills world req = none) ∧
    (∀ n, req.params.name = some n → ends_with_review n = false →
      handle_request skills world req = none) ∧
    (∀ n, req.params.name = some n →
      skills.lookup (prompt_skill_name n) = none →
      handle_request skills world req = none) ∧
    (∀ n sk, req.params.name = some n →
      skills.lookup (prompt_skill_name n) = some sk →
      sk.prompt_exists = false → handle_request skills world req = none) := by
  refine ⟨?_, ?_, ?_, ?_, ?_⟩
  · intro S sk hinf hreg hname hpe
    have hdata : (S ++ "-review").data = S.data ++ patReview := by
      rw [String.data_append]
      rfl
    have hne : (S ++ "-review") ≠ "" := by
      intro hcontra
      have h0 : S.data ++ patReview = ([] : List Char) := by
        have h1 := congrArg String.data hcontra
        rw [String.data_append] at h1
        exact h1
      simp [patReview] at h0
    have hsuf : ends_with_review (S ++ "-review") = true := by
      unfold ends_with_review
      rw [hdata, charsSuffix_iff]
      exact List.suffix_append _ _
    have hskill : prompt_skill_name (S ++ "-review") = S := by
      unfold prompt_skill_name
      rw [hdata, removeReview_append_pat S.data hinf]
    simp [handle_request, hm, hname, hne, hsuf, hskill, hreg, hpe]
  · intro hnone
    simp [handle_request, hm, hnone]
  · intro n hn hew
    simp [handle_request, hm, hn, hew]
  · intro n hn hlook
    simp [handle_request, hm, hn, hlook]
  · intro n sk hn hlook hpe
    simp [handle_request, hm, hn, hlook, hpe]

/-- A registry holding one skill whose name itself contains
`"-review"`, with an existing prompt file. -/
def skillsCX : List (String × SkillInfo) := [("a-review", ⟨true, "P"⟩)]

/-- A `prompts/get` request for the skill `"a-review"`, named exactly
`"a-review" ++ "-review"`. -/
def reqCX : Request := ⟨some "prompts/get", ⟨some "a-review-review", none⟩, some 1⟩

/-- C3 counterexample: the skill `"a-review"` is registered and its
prompt file exists, the request `name` is exactly the skill name
followed by `"-review"`, yet the handler yields no response:
`str.replace` removes *every* occurrence of `"-review"`, so the handler
looks up `"a"` instead of `"a-review"`. -/
theorem prompts_get_exact_roundtrip_counterexample :
    skillsCX.lookup "a-review" = some ⟨true, "P"⟩ ∧
    reqCX.params.name = some ("a-review" ++ "-review") ∧
    ends_with_review "a-review-review" = true ∧
    prompt_skill_name "a-review-review" = "a" ∧
    handle_request skillsCX worldTrivial reqCX = none :=
  ⟨rfl, rfl, rfl, rfl, rfl⟩

/-- A registry with one ordinary skill with an existing prompt file and
one whose prompt file is missing. -/
def skillsW : List (String × SkillInfo) :=
  [("alpha", ⟨true, "PROMPT"⟩), ("beta", ⟨false, ""⟩)]

/-- A well-formed `prompts/get` request for skill `"alpha"`. -/
def reqW3 : Request := ⟨some "prompts/get", ⟨some "alpha-review", none⟩, some 7⟩

theorem prompts_get_exact_roundtrip_witness :
    (¬ patReview <:+: ("alpha" : String).data) ∧
    skillsW.lookup "alpha" = some ⟨true, "PROMPT"⟩ ∧
    handle_request skillsW worldTrivial reqW3 =
      some ⟨some 7, Response.promptMessages "PROMPT"⟩ :=
  ⟨by decide, rfl,
    (prompts_get_exact_roundtrip skillsW worldTrivial reqW3 rfl).1
      "alpha" ⟨true, "PROMPT"⟩ (by decide) rfl rfl rfl⟩

/-- A PMD report violation entry with `beginline` and `rule` present
and `endline`, `ruleset`, `priority`, `description`, `externalInfoUrl`
absent. -/
def vW : List (String × JVal) :=
  [("beginline", JVal.jnum 10), ("rule", JVal.jstr "R")]

/-- A PMD report file entry holding `vW`. -/
def feW : List (String × JVal) :=
  [("filename", JVal.jstr "A.java"),
   ("violations", JVal.jarr [JVal.jobj vW])]

/-- A PMD report whose `"files"` array holds `feW`. -/
def pmdW : List (String × JVal) :=
  [("formatVersion", JVal.jnum 1),
   ("files", JVal.jarr [JVal.jobj feW])]

/-- C7: violation reduction.  Every violation entry of every file entry
of the parsed report contributes its field-by-field simplified record
to `format_pmd_results`; each present field maps to itself, an absent
`priority` maps to 3, absent `beginline`/`endline` map to 0, absent
`rule`/`ruleset` map to `"unknown"`, and absent
`description`/`externalInfoUrl` map to the empty string. -/
theorem violation_reduction_defaults (pmd : List (String × JVal))
    (fls vs : List JVal) (fe v : List (String × JVal))
    (hne : pmd ≠ [])
    (hfiles : pmd.lookup "files" = some (JVal.jarr fls))
    (hfe : JVal.jobj fe ∈ fls)
    (hvs : jget fe "violations" (JVal.jarr []) = JVal.jarr vs)
    (hv : JVal.jobj v ∈ vs) :
    mkViolation (jget fe "filename" (JVal.jstr "unknown")) v ∈
      format_pmd_results pmd ∧
    (∀ f, (mkViolation f v).file = f) ∧
    (∀ f, v.lookup "beginline" = none →
      (mkViolation f v).line = JVal.jnum 0) ∧
    (∀ f x, v.lookup "beginline" = some x → (mkViolation f v).line = x) ∧
    (∀ f, v.lookup "endline" = none →
      (mkViolation f v).endLine = JVal.jnum 0) ∧
    (∀ f x, v.lookup "endline" = some x → (mkViolation f v).endLine = x) ∧
    (∀ f, v.lookup "rule" = none →
      (mkViolation f v).rule = JVal.jstr "unknown") ∧
    (∀ f x, v.lookup "rule" = some x → (mkViolation f v).rule = x) ∧
    (∀ f, v.lookup "ruleset" = none →
      (mkViolation f v).ruleSet = JVal.jstr "unknown") ∧
    (∀ f x, v.lookup "ruleset" = some x → (mkViolation f v).ruleSet = x) ∧
    (∀ f, v.lookup "priority" = none →
      (mkViolation f v).priority = JVal.jnum 3) ∧
    (∀ f x, v.lookup "priority" = some x → (mkViolation f v).priority = x) ∧
    (∀ f, v.lookup "description" = none →
      (mkViolation f v).description = JVal.jstr "") ∧
    (∀ f x, v.lookup "description" = some x →
      (mkViolation f v).description = x) ∧
    (∀ f, v.lookup "externalInfoUrl" = none →
      (mkViolation f v).externalInfoUrl = JVal.jstr "") ∧
    (∀ f x, v.lookup "externalInfoUrl" = some x →
      (mkViolation f v).externalInfoUrl = x) := by
  refine ⟨?_, ?_, ?_, ?_, ?_, ?_, ?_, ?_, ?_, ?_, ?_, ?_, ?_, ?_, ?_, ?_⟩
  · have hempty : pmd.isEmpty = false := by
      cases pmd with
      | nil => exact absurd rfl hne
      | cons a l => rfl
    unfold format_pmd_results
    rw [hempty, hfiles]
    simp only [Option.isNone_some, Bool.or_self, Bool.false_eq_true,
      if_false]
    have hjget : jget pmd "files" (JVal.jarr []) = JVal.jarr fls := by
      unfold jget; rw [hfiles]
    rw [hjget]
    simp only [asArr]
    rw [List.mem_flatMap]
    refine ⟨JVal.jobj fe, hfe, ?_⟩
    simp only [asObj]
    rw [hvs]
    simp only [asArr]
    exact List.mem_map_of_mem (fun w => mkViolation _ (asObj w)) hv
  · intro f; rfl
  · intro f hx; simp [mkViolation, jget, hx]
  · intro f x hx; simp [mkViolation, jget, hx]
  · intro f hx; simp [mkViolation, jget, hx]
  · intro f x hx; simp [mkViolation, jget, hx]
  · intro f hx; simp [mkViolation, jget, hx]
  · intro f x hx; simp [mkViolation, jget, hx]
  · intro f hx; simp [mkViolation, jget, hx]
  · intro f x hx; simp [mkViolation, jget, hx]
  · intro f hx; simp [mkViolation, jget, hx]
  · intro f x hx; simp [mkViolation, jget, hx]
  · intro f hx; simp [mkViolation, jget, hx]
  · intro f x hx; simp [mkViolation, jget, hx]
  · intro f hx; simp [mkViolation, jget, hx]
  · intro f x hx; simp [mkViolation, jget, hx]

theorem violation_reduction_defaults_witness :
    mkViolation (JVal.jstr "A.java") vW ∈ format_pmd_results pmdW ∧
    (mkViolation (JVal.jstr "A.java") vW).priority = JVal.jnum 3 ∧
    (mkViolation (JVal.jstr "A.java") vW).line = JVal.jnum 10 ∧
    (mkViolation (JVal.jstr "A.java") vW).endLine = JVal.jnum 0 ∧
    (mkViolation (JVal.jstr "A.java") vW).rule = JVal.jstr "R" ∧
    (mkViolation (JVal.jstr "A.java") vW).ruleSet = JVal.jstr "unknown" ∧
    (mkViolation (JVal.jstr "A.java") vW).description = JVal.jstr "" ∧
    (mkViolation (JVal.jstr "A.java") vW).externalInfoUrl = JVal.jstr "" := by
  obtain ⟨hmem, _, _, hbl, hel, _, _, hr, hrs, _, hpr, _, hd, _, hu, _⟩ :=
    violation_reduction_defaults pmdW [JVal.jobj feW] [JVal.jobj vW] feW vW
      (by simp [pmdW]) rfl (by simp) rfl (by simp)
  exact ⟨hmem, hpr (JVal.jstr "A.java") rfl,
    hbl (JVal.jstr "A.java") (JVal.jnum 10) rfl,
    hel (JVal.jstr "A.java") rfl,
    hr (JVal.jstr "A.java") (JVal.jstr "R") rfl,
    hrs (JVal.jstr "A.java") rfl,
    hd (JVal.jstr "A.java") rfl,
    hu (JVal.jstr "A.java") rfl⟩

theorem discover_skills_sublist (children : List DirEntry) :
    (discover_skills (some children)).Sublist (children.map DirEntry.name) := by
  induction children with
  | nil => simp [discover_skills]
  | cons e rest ih =>
    by_cases hc : (e.isDir && !starts_with_underscore e.name) = true
    · have hstep : discover_skills (some (e :: rest)) =
          e.name :: discover_skills (some rest) := by
        simp only [discover_skills, List.filterMap_cons, hc, if_true]
      rw [hstep, List.map_cons]
      exact List.Sublist.cons₂ e.name ih
    · have hstep : discover_skills (some (e :: rest)) =
          discover_skills (some rest) := by
        simp only [discover_skills, List.filterMap_cons, hc,
          Bool.false_eq_true, if_false]
      rw [hstep, List.map_cons]
      exact List.Sublist.cons e.name ih

/-- C8: registry discovery.  A nonexistent skills root yields the empty
mapping; otherwise, among the immediate children (the only entries
`iterdir` yields — discovery never recurses), every directory child not
starting with `'_'` contributes exactly one entry keyed by its name,
while non-directory children and children starting with `'_'`
contribute none, and every discovered name comes from such a directory
child. -/
theorem registry_discovery (children : List DirEntry)
    (hnd : (children.map DirEntry.name).Nodup) :
    discover_skills none = [] ∧
    (∀ e ∈ children, e.isDir = true → starts_with_underscore e.name = false →
      (discover_skills (some children)).count e.name = 1) ∧
    (∀ e ∈ children,
      e.isDir = false ∨ starts_with_underscore e.name = true →
      e.name ∉ discover_skills (some children)) ∧
    (∀ n ∈ discover_skills (some children), ∃ e ∈ children,
      e.name = n ∧ e.isDir = true ∧ starts_with_underscore e.name = false) := by
  have hnodup : (discover_skills (some children)).Nodup :=
    List.Nodup.sublist (discover_skills_sublist children) hnd
  refine ⟨rfl, ?_, ?_, ?_⟩
  · intro e he hd hu
    have hmem : e.name ∈ discover_skills (some children) := by
      simp only [discover_skills]
      exact List.mem_filterMap.mpr ⟨e, he, by simp [hd, hu]⟩
    exact List.count_eq_one_of_mem hnodup hmem
  · intro e he hexcl hmem
    simp only [discover_skills] at hmem
    obtain ⟨e2, he2, hf⟩ := List.mem_filterMap.1 hmem
    by_cases hc : (e2.isDir && !starts_with_underscore e2.name) = true
    · rw [if_pos hc] at hf
      have hname : e2.name = e.name := Option.some.inj hf
      have heq : e2 = e := List.inj_on_of_nodup_map hnd he2 he hname
      subst heq
      have hc2 : e2.isDir = true ∧ starts_with_underscore e2.name = false := by
        simpa [Bool.and_eq_true] using hc
      rcases hexcl with hx | hx
      · rw [hx] at hc2; exact absurd hc2.1 (by decide)
      · rw [hx] at hc2; exact absurd hc2.2 (by decide)
    · rw [if_neg hc] at hf
      exact Option.noConfusion hf
  · intro n hmem
    simp only [discover_skills] at hmem
    obtain ⟨e, he, hf⟩ := List.mem_filterMap.1 hmem
    by_cases hc : (e.isDir && !starts_with_underscore e.name) = true
    · rw [if_pos hc] at hf
      have hc2 : e.isDir = true ∧ starts_with_underscore e.name = false := by
        simpa [Bool.and_eq_true] using hc
      exact ⟨e, he, Option.some.inj hf, hc2.1, hc2.2⟩
    · rw [if_neg hc] at hf
      exact Option.noConfusion hf

/-- Sample skills-directory contents: one ordinary skill directory, one
underscore-prefixed directory, one plain file. -/
def childrenW : List DirEntry :=
  [⟨"spring_reviewer", true⟩, ⟨"_shared", true⟩, ⟨"readme.md", false⟩]

theorem registry_discovery_witness :
    (childrenW.map DirEntry.name).Nodup ∧
    discover_skills (some childrenW) = ["spring_reviewer"] ∧
    (discover_skills (some childrenW)).count "spring_reviewer" = 1 ∧
    "_shared" ∉ discover_skills (some childrenW) ∧
    "readme.md" ∉ discover_skills (some childrenW) :=
  ⟨by decide, rfl,
    (registry_discovery childrenW (by decide)).2.1
      ⟨"spring_reviewer", true⟩ (by decide) rfl rfl,
    (registry_discovery childrenW (by decide)).2.2.1
      ⟨"_shared", true⟩ (by decide) (Or.inr rfl),
    (registry_discovery childrenW (by decide)).2.2.1
      ⟨"readme.md", false⟩ (by decide) (Or.inl rfl)⟩

/-- C9: dispatcher loop containment.  The loop's step function `break`s
exactly on end-of-input — a malformed line or a handler fault never
stops it — and running the loop over any finite input handles every
line in order, emitting exactly the responses of the successfully
handled requests. -/
theorem dispatcher_loop_containment (skills : List (String × SkillInfo))
    (world : ServerWorld) :
    (∀ s : List LineFate × List RpcResponse,
      loop_step skills world s = none ↔ s.1 = []) ∧
    (∀ ls : List LineFate, server_run skills world ls =
      ls.filterMap (fun l => match l with
        | LineFate.request req => handle_request skills world req
        | _ => none)) := by
  constructor
  · rintro ⟨ls, out⟩
    cases ls with
    | nil => simp [loop_step]
    | cons l rest =>
      cases l with
      | badJson => simp [loop_step]
      | handlerFault req => simp [loop_step]
      | request req =>
        simp only [loop_step]
        cases handle_request skills world req <;> simp
  · intro ls
    induction ls with
    | nil => simp [server_run]
    | cons l rest ih =>
      cases l with
      | badJson => simp [server_run, ih]
      | handlerFault req => simp [server_run, ih]
      | request req =>
        simp only [server_run, List.filterMap_cons]
        cases h : handle_request skills world req <;> simp [h, ih]

/-- An input stream with a malformed line, a good request, a request
whose handling raises, and an unrecognized-method request. -/
def linesW : List LineFate :=
  [LineFate.badJson, LineFate.request reqW3, LineFate.handlerFault reqW3,
   LineFate.request ⟨some "nope", ⟨none, none⟩, none⟩]

theorem dispatcher_loop_containment_witness :
    loop_step skillsW worldTrivial (linesW, []) ≠ none ∧
    loop_step skillsW worldTrivial ([], []) = none ∧
    server_run skillsW worldTrivial linesW =
      [⟨some 7, Response.promptMessages "PROMPT"⟩] := by
  have h := dispatcher_loop_containment skillsW worldTrivial
  refine ⟨?_, (h.1 ([], [])).2 rfl, ?_⟩
  · intro hnone
    have h2 := (h.1 (linesW, [])).1 hnone
    simp [linesW] at h2
  · rw [h.2 linesW]
    rfl

/-- A world in which the bootstrap subprocess completes (with a nonzero
exit code) for target `"/ok"` and raises for any other target. -/
def worldW10 : ServerWorld :=
  ⟨fun t => if t = "/ok" then SubprocResult.completed "SOUT" "SERR" 1
            else SubprocResult.raised "timeout"⟩

/-- A registry containing the `spring_reviewer` skill. -/
def skillsSR : List (String × SkillInfo) := [("spring_reviewer", ⟨false, ""⟩)]

/-- A `tools/call` request whose subprocess completes. -/
def reqW10 : Request :=
  ⟨some "tools/call", ⟨some "spring_reviewer_analyze", some "/ok"⟩, some 3⟩

/-- A `tools/call` request whose subprocess raises. -/
def reqW10b : Request :=
  ⟨some "tools/call", ⟨some "spring_reviewer_analyze", some "/bad"⟩, some 4⟩

/-- C10: `tools/call` success shape.  For a `tools/call` naming the
analyzer tool, with `spring_reviewer` registered and a non-empty
`target_path`: when the subordinate bootstrap process completes within
the timeout, the handler returns a success-shaped response whose text
is stdout ++ newline ++ stderr, regardless of the subprocess's exit
code; an internal-error response (code -32603) arises exactly when
spawning or waiting raises. -/
theorem tools_call_success_shape (skills : List (String × SkillInfo))
    (world : ServerWorld) (req : Request) (t : String) (sk : SkillInfo)
    (hm : req.method = some "tools/call")
    (hn : req.params.name = some "spring_reviewer_analyze")
    (hreg : skills.lookup "spring_reviewer" = some sk)
    (ht : req.params.target_path = some t) (hne : t ≠ "") :
    (∀ out err rc, world.sub_run t = SubprocResult.completed out err rc →
      handle_request skills world req =
        some ⟨req.id, Response.toolText (out ++ "\n" ++ err)⟩) ∧
    (∀ msg, world.sub_run t = SubprocResult.raised msg →
      handle_request skills world req =
        some ⟨req.id, Response.rpcError (-32603) msg⟩) := by
  constructor
  · intro out err rc hsub
    simp [handle_request, hm, hn, hreg, ht, hne, hsub]
  · intro msg hsub
    simp [handle_request, hm, hn, hreg, ht, hne, hsub]

theorem tools_call_success_shape_witness :
    worldW10.sub_run "/ok" = SubprocResult.completed "SOUT" "SERR" 1 ∧
    handle_request skillsSR worldW10 reqW10 =
      some ⟨some 3, Response.toolText ("SOUT" ++ "\n" ++ "SERR")⟩ ∧
    handle_request skillsSR worldW10 reqW10b =
      some ⟨some 4, Response.rpcError (-32603) "timeout"⟩ :=
  ⟨rfl,
    (tools_call_success_shape skillsSR worldW10 reqW10 "/ok" ⟨false, ""⟩
      rfl rfl rfl rfl (by decide)).1 "SOUT" "SERR" 1 rfl,
    (tools_call_success_shape skillsSR worldW10 reqW10b "/bad" ⟨false, ""⟩
      rfl rfl rfl rfl (by decide)).2 "timeout" rfl⟩

end JavaArchitect
